import Mathlib

/-
Verification of the `L2Client` test-harness RPC client (`src/client.rs`).

The client is embedded shallowly: the only persistent state is the atomic
nonce counter, modelled by explicit state passing on an `L2Client` record.
Remote JSON-RPC responses are inputs to each method (an `Except RpcErr v`
value, or a function from the request that the method sends to the
response it receives).  Rust `Result` values returned to the caller are
the `ok`/`err` constructors of `Outcome`; a process abort (an `unwrap`,
`expect` or explicit abort in the source) is the `fatal` constructor.
-/

namespace CitreaE2E

/-- Modulus of the `AtomicU64` nonce counter (`u64` wraps at two to the 64). -/
def UINT64_MOD : Nat := 2 ^ 64

/-- Mirrors `pub const MAX_FEE_PER_GAS: u128 = 1000000001;`. -/
def MAX_FEE_PER_GAS : Nat := 1000000001

/-- Abstract transport or decode error value carried by recoverable errors. -/
abbrev RpcErr := Nat

/-- Result of one client method: a value returned to the caller, a
recoverable error returned to the caller, or an unconditional abort of the
whole process (an `unwrap`/`expect`/abort in the source). -/
inductive Outcome (α : Type) where
  | ok (a : α)
  | err (e : RpcErr)
  | fatal
deriving DecidableEq, Repr

/-- Mirrors `reth_primitives::BlockNumberOrTag`. -/
inductive BlockNumberOrTag where
  | Number (n : Nat)
  | Latest
  | Earliest
  | Pending
  | Safe
  | Finalized
deriving DecidableEq, Repr

/-- Mirrors `TxKind`: contract creation or a call to an address. -/
inductive TxKind where
  | Create
  | Call (addr : Nat)
deriving DecidableEq, Repr

/-- The fields of `alloy` `TransactionRequest` that the client sets.
`TransactionRequest::default()` leaves every field unset.  The field
`from_addr` mirrors the `from` field of the source (`from` is reserved). -/
structure TransactionRequest where
  from_addr : Option Nat := none
  to_kind : Option TxKind := none
  input : Option (List Nat) := none
  value : Option Nat := none
  gas_limit : Option Nat := none
  nonce : Option Nat := none
  max_priority_fee_per_gas : Option Nat := none
  max_fee_per_gas : Option Nat := none
deriving DecidableEq, Repr

/-- Model of `PendingTransactionBuilder`: a handle to the submitted request. -/
structure PendingTx where
  req : TransactionRequest
deriving DecidableEq, Repr

/-- The mutable state of `L2Client`: the connections are never mutated, so
only the identity fields and the `current_nonce` atomic counter appear. -/
structure L2Client where
  chain_id : Nat
  from_addr : Nat
  current_nonce : Nat
deriving DecidableEq, Repr

/-- Mirrors `self.current_nonce.fetch_add(1, Ordering::Relaxed)`: returns the
previous value and stores the wrapped successor. -/
def fetchAddNonce (c : L2Client) : Nat × L2Client :=
  (c.current_nonce, { c with current_nonce := (c.current_nonce + 1) % UINT64_MOD })

/-- The nonce-resolution block repeated verbatim in the submitting methods:
`match nonce { Some(nonce) => nonce, None => self.current_nonce.fetch_add(1, Ordering::Relaxed) }`. -/
def resolveNonce (c : L2Client) (nonce : Option Nat) : Nat × L2Client :=
  match nonce with
  | some n => (n, c)
  | none => fetchAddNonce c

/-- Mirrors `sync_nonce`: queries the remote transaction count, `.unwrap()`s
the response (any failure aborts the process) and stores the count into the
counter unconditionally. -/
def sync_nonce (c : L2Client) (remoteCount : Except RpcErr Nat) :
    Outcome Unit × L2Client :=
  match remoteCount with
  | .error _ => (.fatal, c)
  | .ok n => (.ok (), { c with current_nonce := n })

/-- Mirrors `L2Client::new`: the HTTP and WebSocket connection builders
propagate failure with the question-mark operator; then `sync_nonce` runs,
and a failed initial nonce query aborts inside it. -/
def L2Client.new (chain_id from_addr : Nat)
    (httpConn : Except RpcErr Unit) (wsConn : Except RpcErr Unit)
    (remoteCount : Except RpcErr Nat) : Outcome L2Client :=
  match httpConn with
  | .error e => .err e
  | .ok _ =>
    match wsConn with
    | .error e => .err e
    | .ok _ =>
      let c : L2Client := { chain_id := chain_id, from_addr := from_addr, current_nonce := 0 }
      match sync_nonce c remoteCount with
      | (.ok _, c2) => .ok c2
      | (.err e, _) => .err e
      | (.fatal, _) => .fatal

/-- Mirrors `deploy_contract`: resolve the nonce, build a create request,
`estimate_gas(..).unwrap()` (abort on failure), set gas limit, nonce and the
default fees, then `send_transaction` with recoverable error propagation. -/
def deploy_contract (c : L2Client) (byte_code : List Nat) (nonce : Option Nat)
    (estimateGas : TransactionRequest → Except RpcErr Nat)
    (sendTransaction : TransactionRequest → Except RpcErr Unit) :
    Outcome PendingTx × L2Client :=
  let r := resolveNonce c nonce
  let req0 : TransactionRequest :=
    { from_addr := some c.from_addr, input := some byte_code, to_kind := some TxKind.Create }
  match estimateGas req0 with
  | .error _ => (.fatal, r.2)
  | .ok gas =>
    let req := { req0 with
      gas_limit := some gas
      nonce := some r.1
      max_priority_fee_per_gas := some 10
      max_fee_per_gas := some MAX_FEE_PER_GAS }
    match sendTransaction req with
    | .ok _ => (.ok ⟨req⟩, r.2)
    | .error e => (.err e, r.2)

/-- Mirrors `deploy_contract_call`: the read-only variant.  With no caller
nonce the counter is only loaded (`Ordering::Relaxed` load, no increment);
the request carries the nonce before estimation; `estimate_gas(..).unwrap()`
aborts on failure; the `eth_call` result propagates recoverably. -/
def deploy_contract_call (c : L2Client) (byte_code : List Nat) (nonce : Option Nat)
    (estimateGas : TransactionRequest → Except RpcErr Nat)
    (callRpc : TransactionRequest → Except RpcErr (List Nat)) :
    Outcome (List Nat) × L2Client :=
  let n := match nonce with
    | some n => n
    | none => c.current_nonce
  let req0 : TransactionRequest :=
    { from_addr := some c.from_addr, input := some byte_code, nonce := some n }
  match estimateGas req0 with
  | .error _ => (.fatal, c)
  | .ok gas =>
    let req := { req0 with
      gas_limit := some gas
      max_priority_fee_per_gas := some 10
      max_fee_per_gas := some MAX_FEE_PER_GAS }
    match callRpc req with
    | .ok b => (.ok b, c)
    | .error e => (.err e, c)

/-- Mirrors `contract_transaction`: resolve the nonce, build a call request;
both `estimate_gas` and `send_transaction` are `.unwrap()`ed (abort). -/
def contract_transaction (c : L2Client) (contract_address : Nat) (data : List Nat)
    (nonce : Option Nat)
    (estimateGas : TransactionRequest → Except RpcErr Nat)
    (sendTransaction : TransactionRequest → Except RpcErr Unit) :
    Outcome PendingTx × L2Client :=
  let r := resolveNonce c nonce
  let req0 : TransactionRequest :=
    { from_addr := some c.from_addr
      to_kind := some (TxKind.Call contract_address)
      input := some data }
  match estimateGas req0 with
  | .error _ => (.fatal, r.2)
  | .ok gas =>
    let req := { req0 with
      gas_limit := some gas
      nonce := some r.1
      max_priority_fee_per_gas := some 10
      max_fee_per_gas := some MAX_FEE_PER_GAS }
    match sendTransaction req with
    | .ok _ => (.ok ⟨req⟩, r.2)
    | .error _ => (.fatal, r.2)

/-- Mirrors `contract_transaction_with_custom_fee`: caller-supplied fees; the
value defaults to zero; estimate and send are both `.unwrap()`ed (abort). -/
def contract_transaction_with_custom_fee (c : L2Client) (contract_address : Nat)
    (data : List Nat) (max_priority_fee_per_gas max_fee_per_gas : Nat)
    (value : Option Nat) (nonce : Option Nat)
    (estimateGas : TransactionRequest → Except RpcErr Nat)
    (sendTransaction : TransactionRequest → Except RpcErr Unit) :
    Outcome PendingTx × L2Client :=
  let r := resolveNonce c nonce
  let req0 : TransactionRequest :=
    { from_addr := some c.from_addr
      to_kind := some (TxKind.Call contract_address)
      input := some data
      value := some (value.getD 0) }
  match estimateGas req0 with
  | .error _ => (.fatal, r.2)
  | .ok gas =>
    let req := { req0 with
      gas_limit := some gas
      nonce := some r.1
      max_priority_fee_per_gas := some max_priority_fee_per_gas
      max_fee_per_gas := some max_fee_per_gas }
    match sendTransaction req with
    | .ok _ => (.ok ⟨req⟩, r.2)
    | .error _ => (.fatal, r.2)

/-- The request that `contract_call` builds (it never sets a nonce). -/
def contract_call_request (c : L2Client) (contract_address : Nat) (data : List Nat) :
    TransactionRequest :=
  { from_addr := some c.from_addr
    to_kind := some (TxKind.Call contract_address)
    input := some data }

/-- Mirrors `contract_call`: the `_nonce` argument is unused; a plain
`eth_call` whose transport error propagates recoverably; the `from_str`
parse failure becomes the recoverable error with code zero (the
`Failed to parse bytes` error of the source). -/
def contract_call (c : L2Client) (contract_address : Nat) (data : List Nat)
    (_nonce : Option Nat)
    (callRpc : TransactionRequest → Except RpcErr String)
    (parse : String → Option Nat) : Outcome Nat × L2Client :=
  match callRpc (contract_call_request c contract_address data) with
  | .error e => (.err e, c)
  | .ok s =>
    match parse s with
    | some t => (.ok t, c)
    | none => (.err 0, c)

/-- Mirrors `send_eth`: resolve the nonce, build a value transfer,
`estimate_gas(..).unwrap()` (abort on failure), fee options default to 10
and `MAX_FEE_PER_GAS`, send with recoverable error propagation. -/
def send_eth (c : L2Client) (to_addr : Nat)
    (max_priority_fee_per_gas : Option Nat) (max_fee_per_gas : Option Nat)
    (nonce : Option Nat) (value : Nat)
    (estimateGas : TransactionRequest → Except RpcErr Nat)
    (sendTransaction : TransactionRequest → Except RpcErr Unit) :
    Outcome PendingTx × L2Client :=
  let r := resolveNonce c nonce
  let req0 : TransactionRequest :=
    { from_addr := some c.from_addr
      to_kind := some (TxKind.Call to_addr)
      value := some value }
  match estimateGas req0 with
  | .error _ => (.fatal, r.2)
  | .ok gas =>
    let req := { req0 with
      gas_limit := some gas
      nonce := some r.1
      max_priority_fee_per_gas := some (max_priority_fee_per_gas.getD 10)
      max_fee_per_gas := some (max_fee_per_gas.getD MAX_FEE_PER_GAS) }
    match sendTransaction req with
    | .ok _ => (.ok ⟨req⟩, r.2)
    | .error e => (.err e, r.2)

/-- Mirrors `send_eth_with_gas`: no nonce parameter, the counter is always
fetch-and-incremented; the caller supplies the gas limit, no estimation;
send with recoverable error propagation. -/
def send_eth_with_gas (c : L2Client) (to_addr : Nat)
    (max_priority_fee_per_gas : Option Nat) (max_fee_per_gas : Option Nat)
    (gas : Nat) (value : Nat)
    (sendTransaction : TransactionRequest → Except RpcErr Unit) :
    Outcome PendingTx × L2Client :=
  let r := fetchAddNonce c
  let req : TransactionRequest :=
    { from_addr := some c.from_addr
      to_kind := some (TxKind.Call to_addr)
      value := some value
      gas_limit := some gas
      nonce := some r.1
      max_priority_fee_per_gas := some (max_priority_fee_per_gas.getD 10)
      max_fee_per_gas := some (max_fee_per_gas.getD MAX_FEE_PER_GAS) }
  match sendTransaction req with
  | .ok _ => (.ok ⟨req⟩, r.2)
  | .error e => (.err e, r.2)

/-- Mirrors `eth_get_balance`: `.map_err(|e| e.into())`, so any failure is
returned to the caller recoverably. -/
def eth_get_balance (resp : Except RpcErr Nat) : Outcome Nat :=
  match resp with
  | .ok v => .ok v
  | .error e => .err e

/-- Mirrors `eth_gas_price`: the response is `.unwrap()`ed, so any failure
aborts the process. -/
def eth_gas_price (resp : Except RpcErr Nat) : Outcome Nat :=
  match resp with
  | .ok v => .ok v
  | .error _ => .fatal

/-- Mirrors `eth_get_block_by_number`: the response is `.unwrap()`ed, so any
failure aborts the process (blocks are abstract values here). -/
def eth_get_block_by_number (resp : Except RpcErr Nat) : Outcome Nat :=
  match resp with
  | .ok v => .ok v
  | .error _ => .fatal

/-- Mirrors `eth_accounts`: the response is `.unwrap()`ed, so any failure
aborts the process. -/
def eth_accounts (resp : Except RpcErr (List Nat)) : Outcome (List Nat) :=
  match resp with
  | .ok v => .ok v
  | .error _ => .fatal

/-- Result of `wait_for_l2_block`: unit success or the timeout error
carrying the last polled height. -/
inductive WaitResult where
  | ok
  | timeoutErr (lastHeight : Nat)
deriving DecidableEq, Repr

/-- The polling loop of `wait_for_l2_block` over a finite observation list.
Each observation is the polled head height paired with the clock value read
at the post-poll timeout check (`SystemTime::now()`); `deadline` is
`start + timeout`.  The source checks the height before the deadline: break
with success when the height reached the target, otherwise bail with the
timeout error when `start + timeout <= now`, otherwise sleep and poll again.
Observations past the end of the list give `none` (the loop is still
running). -/
def waitLoop (num deadline : Nat) : List (Nat × Nat) → Option WaitResult
  | [] => none
  | (h, now) :: rest =>
    if num ≤ h then some .ok
    else if deadline ≤ now then some (.timeoutErr h)
    else waitLoop num deadline rest

/-- Mirrors `wait_for_l2_block`: the timeout defaults to 30 seconds and the
deadline is the start instant plus the timeout. -/
def wait_for_l2_block (num : Nat) (timeout : Option Nat) (start : Nat)
    (polls : List (Nat × Nat)) : Option WaitResult :=
  waitLoop num (start + timeout.getD 30) polls

/-- Mirrors `debug_trace_chain`: after subscribing, the start bound must be
a concrete number (else an abort), the end bound must be a concrete number
or `Latest` (the latter resolved to the chain height queried at call time),
and the loop `for _ in start_block..end_block` pulls one per-block batch per
iteration and flattens them in order.  `stream i` is the i-th batch pulled
from the `traceChain` subscription (traces are abstract values here). -/
def debug_trace_chain (start_block end_block : BlockNumberOrTag)
    (chainHeight : Nat) (stream : Nat → List Nat) : Outcome (List Nat) :=
  match start_block with
  | .Number s =>
    match end_block with
    | .Number e => .ok (((List.range (e - s)).map stream).flatten)
    | .Latest => .ok (((List.range (chainHeight - s)).map stream).flatten)
    | _ => .fatal
  | _ => .fatal

/-- One transaction-submitting call together with the remote responses it
will receive, used to state properties of sequential call chains. -/
inductive SubmitCall where
  | deploy (byte_code : List Nat)
      (est : TransactionRequest → Except RpcErr Nat)
      (send : TransactionRequest → Except RpcErr Unit)
  | contractTx (contract_address : Nat) (data : List Nat)
      (est : TransactionRequest → Except RpcErr Nat)
      (send : TransactionRequest → Except RpcErr Unit)
  | customFee (contract_address : Nat) (data : List Nat)
      (prio maxFee : Nat) (value : Option Nat)
      (est : TransactionRequest → Except RpcErr Nat)
      (send : TransactionRequest → Except RpcErr Unit)
  | sendEth (to_addr : Nat) (prio maxFee : Option Nat) (value : Nat)
      (est : TransactionRequest → Except RpcErr Nat)
      (send : TransactionRequest → Except RpcErr Unit)
  | sendEthGas (to_addr : Nat) (prio maxFee : Option Nat) (gas value : Nat)
      (send : TransactionRequest → Except RpcErr Unit)

/-- Runs one submitting call with no explicit caller nonce. -/
def runSubmit (c : L2Client) : SubmitCall → Outcome PendingTx × L2Client
  | .deploy bc est send => deploy_contract c bc none est send
  | .contractTx a d est send => contract_transaction c a d none est send
  | .customFee a d p m v est send =>
      contract_transaction_with_custom_fee c a d p m v none est send
  | .sendEth a p m v est send => send_eth c a p m none v est send
  | .sendEthGas a p m g v send => send_eth_with_gas c a p m g v send

/-- Runs a sequence of submitting calls, threading the client state. -/
def runSubmits (c : L2Client) : List SubmitCall → List (Outcome PendingTx) × L2Client
  | [] => ([], c)
  | call :: rest =>
    let r := runSubmit c call
    let rs := runSubmits r.2 rest
    (r.1 :: rs.1, rs.2)

/-- The nonce observed by each successive no-nonce submitting call: each
call resolves its nonce from the counter state left by the previous one. -/
def observedNonces (c : L2Client) : List SubmitCall → List Nat
  | [] => []
  | call :: rest => (resolveNonce c none).1 :: observedNonces (runSubmit c call).2 rest

/-- The list of consecutive naturals of length k starting at c0. -/
def natSeq (c0 : Nat) : Nat → List Nat
  | 0 => []
  | k + 1 => c0 :: natSeq (c0 + 1) k

/-- The submitted request of a successful outcome, if any. -/
def okReq : Outcome PendingTx → Option TransactionRequest
  | .ok p => some p.req
  | _ => none

theorem deploy_contract_snd (c : L2Client) (bc : List Nat) (nonce : Option Nat)
    (est : TransactionRequest → Except RpcErr Nat)
    (send : TransactionRequest → Except RpcErr Unit) :
    (deploy_contract c bc nonce est send).2 = (resolveNonce c nonce).2 := by
  unfold deploy_contract
  dsimp only
  split
  · rfl
  · split <;> rfl

theorem contract_transaction_snd (c : L2Client) (a : Nat) (d : List Nat)
    (nonce : Option Nat) (est : TransactionRequest → Except RpcErr Nat)
    (send : TransactionRequest → Except RpcErr Unit) :
    (contract_transaction c a d nonce est send).2 = (resolveNonce c nonce).2 := by
  unfold contract_transaction
  dsimp only
  split
  · rfl
  · split <;> rfl

theorem contract_transaction_with_custom_fee_snd (c : L2Client) (a : Nat)
    (d : List Nat) (p m : Nat) (v : Option Nat) (nonce : Option Nat)
    (est : TransactionRequest → Except RpcErr Nat)
    (send : TransactionRequest → Except RpcErr Unit) :
    (contract_transaction_with_custom_fee c a d p m v nonce est send).2 =
      (resolveNonce c nonce).2 := by
  unfold contract_transaction_with_custom_fee
  dsimp only
  split
  · rfl
  · split <;> rfl

theorem send_eth_snd (c : L2Client) (a : Nat) (p m : Option Nat)
    (nonce : Option Nat) (v : Nat) (est : TransactionRequest → Except RpcErr Nat)
    (send : TransactionRequest → Except RpcErr Unit) :
    (send_eth c a p m nonce v est send).2 = (resolveNonce c nonce).2 := by
  unfold send_eth
  dsimp only
  split
  · rfl
  · split <;> rfl

theorem send_eth_with_gas_snd (c : L2Client) (a : Nat) (p m : Option Nat)
    (g v : Nat) (send : TransactionRequest → Except RpcErr Unit) :
    (send_eth_with_gas c a p m g v send).2 = (fetchAddNonce c).2 := by
  unfold send_eth_with_gas
  dsimp only
  split <;> rfl

theorem deploy_contract_call_snd (c : L2Client) (bc : List Nat)
    (nonce : Option Nat) (est : TransactionRequest → Except RpcErr Nat)
    (callRpc : TransactionRequest → Except RpcErr (List Nat)) :
    (deploy_contract_call c bc nonce est callRpc).2 = c := by
  unfold deploy_contract_call
  dsimp only
  split
  · rfl
  · split <;> rfl

theorem contract_call_snd (c : L2Client) (a : Nat) (d : List Nat)
    (nonce : Option Nat) (callRpc : TransactionRequest → Except RpcErr String)
    (parse : String → Option Nat) :
    (contract_call c a d nonce callRpc parse).2 = c := by
  unfold contract_call
  split
  · rfl
  · split <;> rfl

theorem runSubmit_state (c : L2Client) (call : SubmitCall) :
    (runSubmit c call).2 = { c with current_nonce := (c.current_nonce + 1) % UINT64_MOD } := by
  cases call with
  | deploy bc est send => exact deploy_contract_snd c bc none est send
  | contractTx a d est send => exact contract_transaction_snd c a d none est send
  | customFee a d p m v est send =>
      exact contract_transaction_with_custom_fee_snd c a d p m v none est send
  | sendEth a p m v est send => exact send_eth_snd c a p m none v est send
  | sendEthGas a p m g v send => exact send_eth_with_gas_snd c a p m g v send

theorem runSubmit_req_nonce (c : L2Client) (call : SubmitCall) :
    (okReq (runSubmit c call).1).map TransactionRequest.nonce =
      (okReq (runSubmit c call).1).map (fun _ => some c.current_nonce) := by
  cases call with
  | deploy bc est send =>
      simp only [runSubmit]
      unfold deploy_contract
      dsimp only
      split
      · rfl
      · split <;> rfl
  | contractTx a d est send =>
      simp only [runSubmit]
      unfold contract_transaction
      dsimp only
      split
      · rfl
      · split <;> rfl
  | customFee a d p m v est send =>
      simp only [runSubmit]
      unfold contract_transaction_with_custom_fee
      dsimp only
      split
      · rfl
      · split <;> rfl
  | sendEth a p m v est send =>
      simp only [runSubmit]
      unfold send_eth
      dsimp only
      split
      · rfl
      · split <;> rfl
  | sendEthGas a p m g v send =>
      simp only [runSubmit]
      unfold send_eth_with_gas
      dsimp only
      split <;> rfl

theorem natSeq_mem_ge (c0 k : Nat) : ∀ x ∈ natSeq c0 k, c0 ≤ x := by
  induction k generalizing c0 with
  | zero => intro x hx; simp [natSeq] at hx
  | succ n ih =>
    intro x hx
    simp only [natSeq, List.mem_cons] at hx
    rcases hx with rfl | hx
    · exact Nat.le_refl x
    · exact Nat.le_of_succ_le (ih (c0 + 1) x hx)

theorem natSeq_pairwise (c0 k : Nat) : (natSeq c0 k).Pairwise (· < ·) := by
  induction k generalizing c0 with
  | zero => exact List.Pairwise.nil
  | succ n ih =>
    refine List.Pairwise.cons ?_ (ih (c0 + 1))
    intro x hx
    exact Nat.lt_of_succ_le (natSeq_mem_ge (c0 + 1) n x hx)

theorem natSeq_chain (c0 k : Nat) :
    List.Chain' (fun a b => b = a + 1) (natSeq c0 k) := by
  induction k generalizing c0 with
  | zero => exact List.chain'_nil
  | succ n ih =>
    cases n with
    | zero => exact List.chain'_singleton c0
    | succ m => exact List.Chain'.cons rfl (ih (c0 + 1))

theorem observedNonces_eq (c : L2Client) (calls : List SubmitCall)
    (h : c.current_nonce + calls.length < UINT64_MOD) :
    observedNonces c calls = natSeq c.current_nonce calls.length := by
  induction calls generalizing c with
  | nil => rfl
  | cons call rest ih =>
    have hlt : c.current_nonce + 1 < UINT64_MOD := by
      simp only [List.length_cons] at h
      omega
    show (resolveNonce c none).1 :: observedNonces (runSubmit c call).2 rest =
      c.current_nonce :: natSeq (c.current_nonce + 1) rest.length
    rw [runSubmit_state, Nat.mod_eq_of_lt hlt]
    rw [ih (c := { c with current_nonce := c.current_nonce + 1 })
        (by show c.current_nonce + 1 + rest.length < UINT64_MOD
            simp only [List.length_cons] at h
            omega)]
    rfl

theorem runSubmits_counter (c : L2Client) (calls : List SubmitCall)
    (h : c.current_nonce + calls.length < UINT64_MOD) :
    (runSubmits c calls).2.current_nonce = c.current_nonce + calls.length := by
  induction calls generalizing c with
  | nil => rfl
  | cons call rest ih =>
    have hlt : c.current_nonce + 1 < UINT64_MOD := by
      simp only [List.length_cons] at h
      omega
    show (runSubmits (runSubmit c call).2 rest).2.current_nonce = _
    rw [runSubmit_state, Nat.mod_eq_of_lt hlt]
    rw [ih (c := { c with current_nonce := c.current_nonce + 1 })
        (by show c.current_nonce + 1 + rest.length < UINT64_MOD
            simp only [List.length_cons] at h
            omega)]
    show c.current_nonce + 1 + rest.length = c.current_nonce + (call :: rest).length
    simp only [List.length_cons]
    omega

theorem runSubmits_forall2 (c : L2Client) (calls : List SubmitCall) :
    List.Forall₂
      (fun o nn => (okReq o).map TransactionRequest.nonce =
        (okReq o).map (fun _ => some nn))
      (runSubmits c calls).1 (observedNonces c calls) := by
  induction calls generalizing c with
  | nil => exact List.Forall₂.nil
  | cons call rest ih =>
    exact List.Forall₂.cons (runSubmit_req_nonce c call) (ih (runSubmit c call).2)

/-- Claim C1: every transaction-submitting call invoked without an explicit
nonce obtains the current value of the local nonce counter (the nonce placed
in the submitted request is the pre-call counter value) and advances the
counter by exactly one, so sequential successive invocations observe the
consecutive sequence of values starting at the initial counter: strictly
increasing, no repeats, no gaps (given that the u64 counter does not wrap). -/
theorem sequential_nonce_allocation (c : L2Client) (calls : List SubmitCall)
    (h : c.current_nonce + calls.length < UINT64_MOD) :
    observedNonces c calls = natSeq c.current_nonce calls.length
    ∧ (observedNonces c calls).Pairwise (· < ·)
    ∧ List.Chain' (fun a b => b = a + 1) (observedNonces c calls)
    ∧ (runSubmits c calls).2.current_nonce = c.current_nonce + calls.length
    ∧ List.Forall₂
        (fun o nn => (okReq o).map TransactionRequest.nonce =
          (okReq o).map (fun _ => some nn))
        (runSubmits c calls).1 (observedNonces c calls) := by
  have h1 := observedNonces_eq c calls h
  refine ⟨h1, ?_, ?_, runSubmits_counter c calls h, runSubmits_forall2 c calls⟩
  · rw [h1]
    exact natSeq_pairwise _ _
  · rw [h1]
    exact natSeq_chain _ _

/-- Witness for C1 at a concrete client and two concrete submitting calls. -/
theorem sequential_nonce_allocation_witness :
    ((⟨5655, 7, 0⟩ : L2Client).current_nonce + 2 < UINT64_MOD)
    ∧ observedNonces ⟨5655, 7, 0⟩
        [SubmitCall.deploy [] (fun _ => Except.ok 1) (fun _ => Except.ok ()),
         SubmitCall.sendEth 9 none none 4 (fun _ => Except.ok 1) (fun _ => Except.ok ())] =
      natSeq 0 2 :=
  ⟨by decide,
   (sequential_nonce_allocation ⟨5655, 7, 0⟩
      [SubmitCall.deploy [] (fun _ => Except.ok 1) (fun _ => Except.ok ()),
       SubmitCall.sendEth 9 none none 4 (fun _ => Except.ok 1) (fun _ => Except.ok ())]
      (by decide)).1⟩

/-- Claim C3: with a concrete start bound, `debug_trace_chain` pulls exactly
(end minus start) batches from the subscription (the end bound being either
the given concrete number or, for `Latest`, the chain height queried at call
time), returns their concatenation in block order, with total length the sum
of the per-block trace counts; every other end-bound form is a fatal input
error. -/
theorem debug_trace_chain_batches (s e height : Nat) (stream : Nat → List Nat) :
    debug_trace_chain (.Number s) (.Number e) height stream =
        .ok (((List.range (e - s)).map stream).flatten)
    ∧ debug_trace_chain (.Number s) .Latest height stream =
        .ok (((List.range (height - s)).map stream).flatten)
    ∧ ((List.range (e - s)).map stream).length = e - s
    ∧ (((List.range (e - s)).map stream).flatten).length =
        ((List.range (e - s)).map (fun i => (stream i).length)).sum
    ∧ debug_trace_chain (.Number s) .Earliest height stream = .fatal
    ∧ debug_trace_chain (.Number s) .Pending height stream = .fatal
    ∧ debug_trace_chain (.Number s) .Safe height stream = .fatal
    ∧ debug_trace_chain (.Number s) .Finalized height stream = .fatal := by
  refine ⟨rfl, rfl, ?_, ?_, rfl, rfl, rfl, rfl⟩
  · simp
  · simp only [List.length_flatten, List.map_map]
    rfl

/-- Claim C10: `debug_trace_chain` requires the start bound to be a concrete
block number: every other start-bound form, `Latest` included, is a fatal
input error, whatever the end bound is. -/
theorem debug_trace_chain_start_must_be_number (e : BlockNumberOrTag)
    (height : Nat) (stream : Nat → List Nat) :
    debug_trace_chain .Latest e height stream = .fatal
    ∧ debug_trace_chain .Earliest e height stream = .fatal
    ∧ debug_trace_chain .Pending e height stream = .fatal
    ∧ debug_trace_chain .Safe e height stream = .fatal
    ∧ debug_trace_chain .Finalized e height stream = .fatal :=
  ⟨rfl, rfl, rfl, rfl, rfl⟩

/-- Claim C9: the read-only `contract_call` ignores its nonce argument: two
invocations differing only in the supplied nonce option are identical, the
request it builds carries no nonce, the client state (hence the nonce
counter) is returned unchanged, and the result does not depend on the value
held by the counter. -/
theorem contract_call_ignores_nonce (c : L2Client) (a : Nat) (d : List Nat)
    (n1 n2 : Option Nat) (callRpc : TransactionRequest → Except RpcErr String)
    (parse : String → Option Nat) (k : Nat) :
    contract_call c a d n1 callRpc parse = contract_call c a d n2 callRpc parse
    ∧ (contract_call_request c a d).nonce = none
    ∧ (contract_call c a d n1 callRpc parse).2 = c
    ∧ (contract_call ⟨c.chain_id, c.from_addr, k⟩ a d n1 callRpc parse).1 =
        (contract_call c a d n1 callRpc parse).1 := by
  refine ⟨rfl, rfl, contract_call_snd c a d n1 callRpc parse, ?_⟩
  unfold contract_call
  dsimp only [contract_call_request]
  split
  · rfl
  · split <;> rfl

theorem waitLoop_ok_iff (num d : Nat) (polls : List (Nat × Nat)) :
    waitLoop num d polls = some WaitResult.ok ↔
      ∃ pre p post, polls = pre ++ p :: post ∧ num ≤ p.1 ∧
        ∀ q ∈ pre, q.1 < num ∧ q.2 < d := by
  induction polls with
  | nil =>
    constructor
    · intro hw
      simp [waitLoop] at hw
    · rintro ⟨pre, p, post, hEq, -, -⟩
      exact absurd hEq (by simp)
  | cons a rest ih =>
    obtain ⟨hh, now⟩ := a
    by_cases h1 : num ≤ hh
    · constructor
      · intro _
        exact ⟨[], (hh, now), rest, rfl, h1, by simp⟩
      · intro _
        simp [waitLoop, h1]
    · by_cases h2 : d ≤ now
      · constructor
        · intro hw
          simp [waitLoop, h1, h2] at hw
        · rintro ⟨pre, p, post, hEq, hp, hpre⟩
          cases pre with
          | nil =>
            injection hEq with e1 e2
            subst e1
            exact absurd hp h1
          | cons q pre2 =>
            injection hEq with e1 e2
            subst e1
            exact absurd (hpre (hh, now) (List.mem_cons_self _ _)).2 (Nat.not_lt.mpr h2)
      · have hw : waitLoop num d ((hh, now) :: rest) = waitLoop num d rest := by
          simp [waitLoop, h1, h2]
        rw [hw, ih]
        constructor
        · rintro ⟨pre, p, post, hEq, hp, hpre⟩
          refine ⟨(hh, now) :: pre, p, post, by rw [hEq]; rfl, hp, ?_⟩
          rintro q hq
          rcases List.mem_cons.mp hq with rfl | hq2
          · exact ⟨Nat.not_le.mp h1, Nat.not_le.mp h2⟩
          · exact hpre q hq2
        · rintro ⟨pre, p, post, hEq, hp, hpre⟩
          cases pre with
          | nil =>
            injection hEq with e1 e2
            subst e1
            exact absurd hp h1
          | cons q pre2 =>
            injection hEq with e1 e2
            subst e1
            exact ⟨pre2, p, post, e2, hp,
              fun q2 hq2 => hpre q2 (List.mem_cons_of_mem _ hq2)⟩

theorem waitLoop_err_iff (num d hgt : Nat) (polls : List (Nat × Nat)) :
    waitLoop num d polls = some (WaitResult.timeoutErr hgt) ↔
      ∃ pre p post, polls = pre ++ p :: post ∧ p.1 < num ∧ d ≤ p.2 ∧ p.1 = hgt ∧
        ∀ q ∈ pre, q.1 < num ∧ q.2 < d := by
  induction polls with
  | nil =>
    constructor
    · intro hw
      simp [waitLoop] at hw
    · rintro ⟨pre, p, post, hEq, -, -, -, -⟩
      exact absurd hEq (by simp)
  | cons a rest ih =>
    obtain ⟨hh, now⟩ := a
    by_cases h1 : num ≤ hh
    · constructor
      · intro hw
        simp [waitLoop, h1] at hw
      · rintro ⟨pre, p, post, hEq, hp, -, -, hpre⟩
        cases pre with
        | nil =>
          injection hEq with e1 e2
          subst e1
          exact absurd h1 (Nat.not_le.mpr hp)
        | cons q pre2 =>
          injection hEq with e1 e2
          subst e1
          exact absurd h1 (Nat.not_le.mpr (hpre (hh, now) (List.mem_cons_self _ _)).1)
    · by_cases h2 : d ≤ now
      · have hw : waitLoop num d ((hh, now) :: rest) = some (WaitResult.timeoutErr hh) := by
          simp [waitLoop, h1, h2]
        rw [hw]
        constructor
        · intro hsome
          injection hsome with e3
          injection e3 with e4
          exact ⟨[], (hh, now), rest, rfl, Nat.not_le.mp h1, h2, e4, by simp⟩
        · rintro ⟨pre, p, post, hEq, hp, hd, hph, hpre⟩
          cases pre with
          | nil =>
            injection hEq with e1 e2
            subst e1
            have e : hh = hgt := hph
            rw [e]
          | cons q pre2 =>
            injection hEq with e1 e2
            subst e1
            exact absurd (hpre (hh, now) (List.mem_cons_self _ _)).2 (Nat.not_lt.mpr h2)
      · have hw : waitLoop num d ((hh, now) :: rest) = waitLoop num d rest := by
          simp [waitLoop, h1, h2]
        rw [hw, ih]
        constructor
        · rintro ⟨pre, p, post, hEq, hp, hd, hph, hpre⟩
          refine ⟨(hh, now) :: pre, p, post, by rw [hEq]; rfl, hp, hd, hph, ?_⟩
          rintro q hq
          rcases List.mem_cons.mp hq with rfl | hq2
          · exact ⟨Nat.not_le.mp h1, Nat.not_le.mp h2⟩
          · exact hpre q hq2
        · rintro ⟨pre, p, post, hEq, hp, hd, hph, hpre⟩
          cases pre with
          | nil =>
            injection hEq with e1 e2
            subst e1
            exact absurd hd h2
          | cons q pre2 =>
            injection hEq with e1 e2
            subst e1
            exact ⟨pre2, p, post, e2, hp, hd, hph,
              fun q2 hq2 => hpre q2 (List.mem_cons_of_mem _ hq2)⟩

/-- Counterexample to C2: with an explicit zero timeout, the single poll
observes the target height at clock value 5, strictly after the deadline
(start 0 plus timeout 0), yet the call returns success: the height was not
reached within the timeout, so success is not equivalent to reaching the
target height within the timeout. -/
theorem wait_for_l2_block_success_after_deadline :
    wait_for_l2_block 1 (some 0) 0 [(1, 5)] = some WaitResult.ok
    ∧ 0 + (some (0 : Nat)).getD 30 < 5 := by decide

/-- Claim C2 (amended): `wait_for_l2_block` (default timeout 30 seconds)
returns success exactly when some poll observes a height at or above the
target and every earlier poll was below the target and passed its post-poll
deadline check; because the height is checked before the deadline, the
successful poll itself may happen after the deadline.  It returns the
timeout error exactly when a poll observes a height below the target at a
clock value at or past the deadline `start + timeout` (so at least the
timeout has elapsed), with every earlier poll below target and before the
deadline, and the error carries exactly that last polled height. -/
theorem wait_for_l2_block_behaviour (num : Nat) (timeout : Option Nat)
    (start : Nat) (polls : List (Nat × Nat)) (hgt : Nat) :
    (wait_for_l2_block num timeout start polls = some WaitResult.ok ↔
      ∃ pre p post, polls = pre ++ p :: post ∧ num ≤ p.1 ∧
        ∀ q ∈ pre, q.1 < num ∧ q.2 < start + timeout.getD 30)
    ∧ (wait_for_l2_block num timeout start polls = some (WaitResult.timeoutErr hgt) ↔
      ∃ pre p post, polls = pre ++ p :: post ∧ p.1 < num ∧
        start + timeout.getD 30 ≤ p.2 ∧ p.1 = hgt ∧
        ∀ q ∈ pre, q.1 < num ∧ q.2 < start + timeout.getD 30)
    ∧ wait_for_l2_block num none start polls = wait_for_l2_block num (some 30) start polls :=
  ⟨waitLoop_ok_iff num (start + timeout.getD 30) polls,
   waitLoop_err_iff num (start + timeout.getD 30) hgt polls, rfl⟩

/-- Counterexample to C4: the balance wrapper does not abort on failure; it
returns the failure to the caller as a recoverable error. -/
theorem eth_get_balance_recoverable :
    eth_get_balance (Except.error 3) = Outcome.err 3
    ∧ eth_get_balance (Except.error 3) ≠ Outcome.fatal := by decide

/-- Claim C4 (amended): in the fatal tier, the gas-price, block-fetch and
accounts convenience wrappers and every gas-estimation call site inside the
transaction-submitting methods abort the whole process on any failure; the
balance wrapper is not in that tier: it returns failures recoverably. -/
theorem fatal_tier_behaviour (e : RpcErr) (c : L2Client) (bc : List Nat)
    (a : Nat) (d : List Nat) (nonceOpt pOpt mOpt : Option Nat) (p m v : Nat)
    (vOpt : Option Nat) (send : TransactionRequest → Except RpcErr Unit)
    (callB : TransactionRequest → Except RpcErr (List Nat)) :
    eth_gas_price (Except.error e) = Outcome.fatal
    ∧ eth_get_block_by_number (Except.error e) = Outcome.fatal
    ∧ eth_accounts (Except.error e) = Outcome.fatal
    ∧ eth_get_balance (Except.error e) = Outcome.err e
    ∧ (deploy_contract c bc nonceOpt (fun _ => Except.error e) send).1 = Outcome.fatal
    ∧ (deploy_contract_call c bc nonceOpt (fun _ => Except.error e) callB).1 = Outcome.fatal
    ∧ (contract_transaction c a d nonceOpt (fun _ => Except.error e) send).1 = Outcome.fatal
    ∧ (contract_transaction_with_custom_fee c a d p m vOpt nonceOpt
        (fun _ => Except.error e) send).1 = Outcome.fatal
    ∧ (send_eth c a pOpt mOpt nonceOpt v (fun _ => Except.error e) send).1 = Outcome.fatal :=
  ⟨rfl, rfl, rfl, rfl, rfl, rfl, rfl, rfl, rfl⟩

/-- Counterexample to C7: the manual resync operation stores the remote
count into the counter unconditionally, so with a local counter at 5 and a
remote count of 3 the counter decreases from 5 to 3. -/
theorem sync_nonce_can_decrease :
    ((sync_nonce ⟨5655, 7, 5⟩ (Except.ok 3)).2).current_nonce = 3
    ∧ 3 < 5 := by decide

/-- Claim C7 (amended): no client operation other than the explicit manual
resync `sync_nonce` stores a smaller value into the nonce counter: every
submitting or read-only method leaves the counter unchanged or advances it
by one (given that the u64 counter does not wrap); only `sync_nonce`
reconciles toward the remote node and it may decrease the counter. -/
theorem nonce_nondecreasing_except_sync (c : L2Client) (bc : List Nat)
    (a : Nat) (d : List Nat) (nonceOpt pOpt mOpt : Option Nat) (p m g v : Nat)
    (vOpt : Option Nat) (est : TransactionRequest → Except RpcErr Nat)
    (send : TransactionRequest → Except RpcErr Unit)
    (callB : TransactionRequest → Except RpcErr (List Nat))
    (callS : TransactionRequest → Except RpcErr String)
    (parse : String → Option Nat)
    (h : c.current_nonce + 1 < UINT64_MOD) :
    c.current_nonce ≤ ((deploy_contract c bc nonceOpt est send).2).current_nonce
    ∧ c.current_nonce ≤ ((deploy_contract_call c bc nonceOpt est callB).2).current_nonce
    ∧ c.current_nonce ≤ ((contract_transaction c a d nonceOpt est send).2).current_nonce
    ∧ c.current_nonce ≤
        ((contract_transaction_with_custom_fee c a d p m vOpt nonceOpt est send).2).current_nonce
    ∧ c.current_nonce ≤ ((send_eth c a pOpt mOpt nonceOpt v est send).2).current_nonce
    ∧ c.current_nonce ≤ ((send_eth_with_gas c a pOpt mOpt g v send).2).current_nonce
    ∧ c.current_nonce ≤ ((contract_call c a d nonceOpt callS parse).2).current_nonce := by
  have hres : ∀ nOpt : Option Nat,
      c.current_nonce ≤ ((resolveNonce c nOpt).2).current_nonce := by
    intro nOpt
    cases nOpt with
    | none =>
      show c.current_nonce ≤ (c.current_nonce + 1) % UINT64_MOD
      rw [Nat.mod_eq_of_lt h]
      exact Nat.le_succ _
    | some n => exact Nat.le_refl _
  refine ⟨?_, ?_, ?_, ?_, ?_, ?_, ?_⟩
  · rw [deploy_contract_snd]
    exact hres nonceOpt
  · rw [deploy_contract_call_snd]
  · rw [contract_transaction_snd]
    exact hres nonceOpt
  · rw [contract_transaction_with_custom_fee_snd]
    exact hres nonceOpt
  · rw [send_eth_snd]
    exact hres nonceOpt
  · rw [send_eth_with_gas_snd]
    exact hres none
  · rw [contract_call_snd]

/-- Witness for C7 at a concrete client and concrete remote responses. -/
theorem nonce_nondecreasing_except_sync_witness :
    ((⟨5655, 7, 5⟩ : L2Client).current_nonce + 1 < UINT64_MOD)
    ∧ (⟨5655, 7, 5⟩ : L2Client).current_nonce ≤
        ((deploy_contract ⟨5655, 7, 5⟩ [] none (fun _ => Except.ok 1)
          (fun _ => Except.ok ())).2).current_nonce :=
  ⟨by decide,
   (nonce_nondecreasing_except_sync ⟨5655, 7, 5⟩ [] 9 [] none none none 1 1 1 4 none
      (fun _ => Except.ok 1) (fun _ => Except.ok ()) (fun _ => Except.ok [])
      (fun _ => Except.error 1) (fun _ => none) (by decide)).1⟩

/-- Counterexample to C8: with both connections up but a failing initial
nonce query, construction aborts the process instead of returning a
recoverable error to the caller. -/
theorem new_aborts_on_nonce_query_failure :
    L2Client.new 5655 7 (Except.ok ()) (Except.ok ()) (Except.error 3) = Outcome.fatal := by
  decide

/-- Claim C8 (amended): construction returns a recoverable error to the
caller when the HTTP or the WebSocket JSON-RPC connection cannot be
established, but a failure of the initial transaction-count query that
seeds the nonce counter aborts the whole process; on full success the
counter is seeded with the remote count. -/
theorem new_error_behaviour (cid fa e n : Nat) (ws : Except RpcErr Unit)
    (rc : Except RpcErr Nat) :
    L2Client.new cid fa (Except.error e) ws rc = Outcome.err e
    ∧ L2Client.new cid fa (Except.ok ()) (Except.error e) rc = Outcome.err e
    ∧ L2Client.new cid fa (Except.ok ()) (Except.ok ()) (Except.error e) = Outcome.fatal
    ∧ L2Client.new cid fa (Except.ok ()) (Except.ok ()) (Except.ok n) =
        Outcome.ok ⟨cid, fa, n⟩ :=
  ⟨rfl, rfl, rfl, rfl⟩

/-- Claim C5: whenever the caller does not specify the fee fields, the
submitted transaction request carries a maximum fee per gas of exactly
1000000001 (the defined constant) and a priority fee per gas of exactly 10:
`deploy_contract` and `contract_transaction` never take fee arguments, and
`send_eth` and `send_eth_with_gas` default their unspecified fee options. -/
theorem default_fee_fields (c : L2Client) (bc : List Nat) (a : Nat)
    (d : List Nat) (nonceOpt : Option Nat) (v g : Nat)
    (est : TransactionRequest → Except RpcErr Nat)
    (send : TransactionRequest → Except RpcErr Unit) :
    (okReq (deploy_contract c bc nonceOpt est send).1).map
        (fun r => (r.max_priority_fee_per_gas, r.max_fee_per_gas)) =
      (okReq (deploy_contract c bc nonceOpt est send).1).map
        (fun _ => (some 10, some MAX_FEE_PER_GAS))
    ∧ (okReq (contract_transaction c a d nonceOpt est send).1).map
        (fun r => (r.max_priority_fee_per_gas, r.max_fee_per_gas)) =
      (okReq (contract_transaction c a d nonceOpt est send).1).map
        (fun _ => (some 10, some MAX_FEE_PER_GAS))
    ∧ (okReq (send_eth c a none none nonceOpt v est send).1).map
        (fun r => (r.max_priority_fee_per_gas, r.max_fee_per_gas)) =
      (okReq (send_eth c a none none nonceOpt v est send).1).map
        (fun _ => (some 10, some MAX_FEE_PER_GAS))
    ∧ (okReq (send_eth_with_gas c a none none g v send).1).map
        (fun r => (r.max_priority_fee_per_gas, r.max_fee_per_gas)) =
      (okReq (send_eth_with_gas c a none none g v send).1).map
        (fun _ => (some 10, some MAX_FEE_PER_GAS)) := by
  refine ⟨?_, ?_, ?_, ?_⟩
  · unfold deploy_contract
    dsimp only
    split
    · rfl
    · split <;> rfl
  · unfold contract_transaction
    dsimp only
    split
    · rfl
    · split <;> rfl
  · unfold send_eth
    dsimp only
    split
    · rfl
    · split <;> rfl
  · unfold send_eth_with_gas
    dsimp only
    split <;> rfl

/-- Counterexample to C6: `deploy_contract_call` invoked without a
caller-supplied nonce does not fetch-and-increment the counter; it only
reads it, leaving the counter at its prior value 5 instead of 6. -/
theorem deploy_contract_call_no_increment :
    ((deploy_contract_call ⟨5655, 7, 5⟩ [] none (fun _ => Except.ok 1)
        (fun _ => Except.ok [])).2).current_nonce = 5
    ∧ ¬ ((deploy_contract_call ⟨5655, 7, 5⟩ [] none (fun _ => Except.ok 1)
        (fun _ => Except.ok [])).2).current_nonce = 5 + 1 := by decide

/-- Claim C6 (amended): the submitting methods `deploy_contract`,
`contract_transaction`, `contract_transaction_with_custom_fee` and
`send_eth` resolve the nonce uniformly: a caller-supplied value takes
precedence, is used as given in the submitted request, and leaves the
counter untouched; otherwise the counter is atomically fetched and
incremented and the fetched value is used.  `send_eth_with_gas` has no
nonce parameter and always fetch-and-increments; the read-only
`deploy_contract_call` deviates: without a caller nonce it reads the
counter without incrementing, never modifying the client state. -/
theorem nonce_resolution_per_method (c : L2Client) (bc : List Nat) (a : Nat)
    (d : List Nat) (n : Nat) (nonceOpt pOpt mOpt : Option Nat) (p m g v : Nat)
    (vOpt : Option Nat) (est : TransactionRequest → Except RpcErr Nat)
    (send : TransactionRequest → Except RpcErr Unit)
    (callB : TransactionRequest → Except RpcErr (List Nat)) :
    resolveNonce c (some n) = (n, c)
    ∧ resolveNonce c none =
        (c.current_nonce, { c with current_nonce := (c.current_nonce + 1) % UINT64_MOD })
    ∧ (deploy_contract c bc nonceOpt est send).2 = (resolveNonce c nonceOpt).2
    ∧ (okReq (deploy_contract c bc nonceOpt est send).1).map TransactionRequest.nonce =
        (okReq (deploy_contract c bc nonceOpt est send).1).map
          (fun _ => some (resolveNonce c nonceOpt).1)
    ∧ (contract_transaction c a d nonceOpt est send).2 = (resolveNonce c nonceOpt).2
    ∧ (okReq (contract_transaction c a d nonceOpt est send).1).map TransactionRequest.nonce =
        (okReq (contract_transaction c a d nonceOpt est send).1).map
          (fun _ => some (resolveNonce c nonceOpt).1)
    ∧ (contract_transaction_with_custom_fee c a d p m vOpt nonceOpt est send).2 =
        (resolveNonce c nonceOpt).2
    ∧ (okReq (contract_transaction_with_custom_fee c a d p m vOpt nonceOpt est send).1).map
          TransactionRequest.nonce =
        (okReq (contract_transaction_with_custom_fee c a d p m vOpt nonceOpt est send).1).map
          (fun _ => some (resolveNonce c nonceOpt).1)
    ∧ (send_eth c a pOpt mOpt nonceOpt v est send).2 = (resolveNonce c nonceOpt).2
    ∧ (okReq (send_eth c a pOpt mOpt nonceOpt v est send).1).map TransactionRequest.nonce =
        (okReq (send_eth c a pOpt mOpt nonceOpt v est send).1).map
          (fun _ => some (resolveNonce c nonceOpt).1)
    ∧ (send_eth_with_gas c a pOpt mOpt g v send).2 = (fetchAddNonce c).2
    ∧ (okReq (send_eth_with_gas c a pOpt mOpt g v send).1).map TransactionRequest.nonce =
        (okReq (send_eth_with_gas c a pOpt mOpt g v send).1).map
          (fun _ => some c.current_nonce)
    ∧ (deploy_contract_call c bc nonceOpt est callB).2 = c := by
  refine ⟨rfl, rfl, deploy_contract_snd c bc nonceOpt est send, ?_,
    contract_transaction_snd c a d nonceOpt est send, ?_,
    contract_transaction_with_custom_fee_snd c a d p m vOpt nonceOpt est send, ?_,
    send_eth_snd c a pOpt mOpt nonceOpt v est send, ?_,
    send_eth_with_gas_snd c a pOpt mOpt g v send, ?_,
    deploy_contract_call_snd c bc nonceOpt est callB⟩
  · unfold deploy_contract
    dsimp only
    split
    · rfl
    · split <;> rfl
  · unfold contract_transaction
    dsimp only
    split
    · rfl
    · split <;> rfl
  · unfold contract_transaction_with_custom_fee
    dsimp only
    split
    · rfl
    · split <;> rfl
  · unfold send_eth
    dsimp only
    split
    · rfl
    · split <;> rfl
  · unfold send_eth_with_gas
    dsimp only
    split <;> rfl

end CitreaE2E
